import Mathlib

/-!
Verification development for a research-automation toolkit
(GitHub data collection, repository time-travel, scanner orchestration,
tabular aggregation).  Each Python function under scrutiny is shallowly
embedded as an executable Lean definition, translated from the source;
theorems below settle the specification claims against these definitions.
-/

set_option maxHeartbeats 1000000

namespace Spec2Proof

/-! ## Severity derivation (`process_scan_results`, `ow.py`)

CVSS-like scores are modelled as rationals.  The Python code derives a
severity bucket with an if/elif chain over the score. -/

/-- Severity bucket derived from a CVSS score, as in `ow.py`
(`if cvss_score >= 9.0: ... elif cvss_score >= 7.0: ... elif
cvss_score >= 4.0: ... elif cvss_score > 0: ... else UNKNOWN`). -/
def severityOf (s : ℚ) : String :=
  if 9 ≤ s then "CRITICAL"
  else if 7 ≤ s then "HIGH"
  else if 4 ≤ s then "MEDIUM"
  else if 0 < s then "LOW"
  else "UNKNOWN"

/-! ## Duration strings (`parse_time` / `format_time`,
`SonarResultsGenerator.py`)

Strings are modelled as `List Char`.  `re.search(r'(\d+)h', s)` tries
each start position from the left; at a given position the pattern can
only match by taking the maximal digit run there followed by the literal
suffix (backtracking to a shorter run puts a digit where the non-digit
literal must be), so the search is embedded as: walk left to right, at a
digit take the whole run and test the literal suffix. -/

/-- Numeric value of a decimal digit character. -/
def charVal (c : Char) : Nat := c.toNat - 48

/-- Value of a big-endian digit string (Python `int(...)` on the matched
group, which is a nonempty digit string). -/
def digitsToNat (ds : List Char) : Nat := ds.foldl (fun a c => a * 10 + charVal c) 0

/-- Embedding of `re.search(r'(\d+)<pat>', s)`: value of the first
maximal digit run that is immediately followed by the literal `pat`. -/
def searchNumSuffix (pat : List Char) : List Char → Option Nat
  | [] => none
  | c :: cs =>
    if c.isDigit then
      if pat.isPrefixOf (List.dropWhile Char.isDigit (c :: cs)) then
        some (digitsToNat (List.takeWhile Char.isDigit (c :: cs)))
      else searchNumSuffix pat cs
    else searchNumSuffix pat cs

/-- Embedding of Python's substring test `pat in s`. -/
def containsSub (pat : List Char) : List Char → Bool
  | [] => pat.isEmpty
  | c :: cs => pat.isPrefixOf (c :: cs) || containsSub pat cs

/-- `parse_time` from `SonarResultsGenerator.py`: convert a debt string
such as `"1h12min"`, `"10min"` or `"2h"` into total minutes.  Empty
input returns 0; each component is read only when its marker occurs in
the string, and defaults to 0 when the regex does not match. -/
def parse_time (s : List Char) : Nat :=
  if s = [] then 0
  else
    let hours := if s.contains 'h' then (searchNumSuffix ['h'] s).getD 0 else 0
    let minutes :=
      if containsSub ['m', 'i', 'n'] s then (searchNumSuffix ['m', 'i', 'n'] s).getD 0 else 0
    hours * 60 + minutes

/-- Little-endian decimal digits of a positive number (empty for 0). -/
def natDigitsAux (n : Nat) : List Char :=
  if h : n = 0 then []
  else Char.ofNat (48 + n % 10) :: natDigitsAux (n / 10)
decreasing_by exact Nat.div_lt_self (Nat.pos_of_ne_zero h) (by norm_num)

/-- Decimal rendering of a natural number (the model of Python f-string
interpolation `f"{n}"`). -/
def natDigits (n : Nat) : List Char :=
  if n = 0 then ['0'] else (natDigitsAux n).reverse

/-- `format_time` from `SonarResultsGenerator.py`: convert total minutes
into `"0min"`, `"<H>h<M>min"`, `"<H>h"` or `"<M>min"`, dropping
zero-valued components. -/
def format_time (t : Nat) : List Char :=
  if t = 0 then ['0', 'm', 'i', 'n']
  else
    let hours := t / 60
    let minutes := t % 60
    if hours > 0 ∧ minutes > 0 then
      natDigits hours ++ 'h' :: (natDigits minutes ++ ['m', 'i', 'n'])
    else if hours > 0 then
      natDigits hours ++ ['h']
    else
      natDigits minutes ++ ['m', 'i', 'n']

/-! ### Digit-string lemmas -/

lemma charVal_ofNat (d : Nat) (h : d < 10) : charVal (Char.ofNat (48 + d)) = d := by
  interval_cases d <;> decide

lemma isDigit_ofNat (d : Nat) (h : d < 10) : (Char.ofNat (48 + d)).isDigit = true := by
  interval_cases d <;> decide

lemma natDigitsAux_isDigit (n : Nat) : ∀ c ∈ natDigitsAux n, c.isDigit = true := by
  induction n using Nat.strong_induction_on with
  | _ n ih =>
    rw [natDigitsAux]
    split
    · intro c hc; simp at hc
    · rename_i h
      intro c hc
      rcases List.mem_cons.mp hc with h1 | h1
      · subst h1; exact isDigit_ofNat _ (Nat.mod_lt _ (by norm_num))
      · exact ih (n / 10) (Nat.div_lt_self (Nat.pos_of_ne_zero h) (by norm_num)) c h1

lemma natDigits_isDigit (n : Nat) : ∀ c ∈ natDigits n, c.isDigit = true := by
  unfold natDigits
  split
  · intro c hc; simp at hc; subst hc; decide
  · intro c hc; exact natDigitsAux_isDigit n c (List.mem_reverse.mp hc)

lemma natDigits_ne_nil (n : Nat) : natDigits n ≠ [] := by
  unfold natDigits
  split
  · simp
  · rename_i h
    rw [natDigitsAux]
    simp [h]

lemma digitsToNat_append_singleton (l : List Char) (c : Char) :
    digitsToNat (l ++ [c]) = digitsToNat l * 10 + charVal c := by
  simp [digitsToNat, List.foldl_append]

lemma digitsToNat_natDigitsAux_reverse (n : Nat) :
    digitsToNat (natDigitsAux n).reverse = n := by
  induction n using Nat.strong_induction_on with
  | _ n ih =>
    rw [natDigitsAux]
    split
    · rename_i h; simp [h, digitsToNat]
    · rename_i h
      rw [List.reverse_cons, digitsToNat_append_singleton,
        ih (n / 10) (Nat.div_lt_self (Nat.pos_of_ne_zero h) (by norm_num)),
        charVal_ofNat _ (Nat.mod_lt _ (by norm_num))]
      omega

lemma digitsToNat_natDigits (n : Nat) : digitsToNat (natDigits n) = n := by
  unfold natDigits
  split
  · rename_i h; subst h; decide
  · exact digitsToNat_natDigitsAux_reverse n

/-! ### takeWhile / dropWhile over a digit run -/

lemma takeWhile_digit_append (ds : List Char) (r : Char) (rs : List Char)
    (hds : ∀ c ∈ ds, c.isDigit = true) (hr : r.isDigit = false) :
    List.takeWhile Char.isDigit (ds ++ r :: rs) = ds := by
  induction ds with
  | nil => simp [List.takeWhile_cons, hr]
  | cons d ds ih =>
    have hd : d.isDigit = true := hds d (List.mem_cons_self d ds)
    have ih' := ih (fun c hc => hds c (List.mem_cons_of_mem d hc))
    simp [List.takeWhile_cons, hd, ih']

lemma dropWhile_digit_append (ds : List Char) (r : Char) (rs : List Char)
    (hds : ∀ c ∈ ds, c.isDigit = true) (hr : r.isDigit = false) :
    List.dropWhile Char.isDigit (ds ++ r :: rs) = r :: rs := by
  induction ds with
  | nil => simp [List.dropWhile_cons, hr]
  | cons d ds ih =>
    have hd : d.isDigit = true := hds d (List.mem_cons_self d ds)
    have ih' := ih (fun c hc => hds c (List.mem_cons_of_mem d hc))
    simp [List.dropWhile_cons, hd, ih']

/-! ### `searchNumSuffix` on well-formed inputs -/

lemma isPrefixOf_append_self (l t : List Char) : l.isPrefixOf (l ++ t) = true := by
  induction l with
  | nil => simp [List.isPrefixOf]
  | cons c cs ih => simp [List.isPrefixOf, ih]

lemma searchNumSuffix_run (p : Char) (pt ds tail : List Char)
    (hp : p.isDigit = false) (hne : ds ≠ []) (hds : ∀ c ∈ ds, c.isDigit = true) :
    searchNumSuffix (p :: pt) (ds ++ (p :: pt) ++ tail) = some (digitsToNat ds) := by
  cases ds with
  | nil => exact absurd rfl hne
  | cons d ds' =>
    have hd : d.isDigit = true := hds d (List.mem_cons_self d ds')
    have hcons : ((d :: ds') ++ (p :: pt) ++ tail : List Char)
        = d :: (ds' ++ (p :: (pt ++ tail))) := by simp
    rw [hcons, searchNumSuffix]
    have hdrop : List.dropWhile Char.isDigit (d :: (ds' ++ (p :: (pt ++ tail))))
        = p :: (pt ++ tail) := by
      have h2 := dropWhile_digit_append (d :: ds') p (pt ++ tail) hds hp
      simpa using h2
    have htake : List.takeWhile Char.isDigit (d :: (ds' ++ (p :: (pt ++ tail))))
        = d :: ds' := by
      have h2 := takeWhile_digit_append (d :: ds') p (pt ++ tail) hds hp
      simpa using h2
    have hpre : (p :: pt).isPrefixOf (p :: (pt ++ tail)) = true :=
      isPrefixOf_append_self (p :: pt) tail
    simp [hd, hdrop, htake, hpre]

lemma searchNumSuffix_min_skip (ds rest : List Char)
    (hds : ∀ c ∈ ds, c.isDigit = true) :
    searchNumSuffix ['m', 'i', 'n'] (ds ++ 'h' :: rest)
      = searchNumSuffix ['m', 'i', 'n'] rest := by
  induction ds with
  | nil =>
    rw [List.nil_append, searchNumSuffix, show 'h'.isDigit = false from rfl]
    simp
  | cons d ds' ih =>
    have hd : d.isDigit = true := hds d (List.mem_cons_self d ds')
    have hds' : ∀ c ∈ ds', c.isDigit = true := fun c hc => hds c (List.mem_cons_of_mem d hc)
    rw [List.cons_append, searchNumSuffix]
    have hdrop : List.dropWhile Char.isDigit (d :: (ds' ++ 'h' :: rest)) = 'h' :: rest := by
      have h2 := dropWhile_digit_append (d :: ds') 'h' rest hds (by decide)
      simpa using h2
    have hnp : (['m', 'i', 'n'] : List Char).isPrefixOf ('h' :: rest) = false := rfl
    simp [hd, hdrop, hnp, ih hds']

/-! ### `containsSub` lemmas -/

lemma containsSub_of_append (p : Char) (pt l tail : List Char) :
    containsSub (p :: pt) (l ++ (p :: pt) ++ tail) = true := by
  induction l with
  | nil =>
    rw [List.nil_append, List.cons_append, containsSub]
    have hpre : (p :: pt).isPrefixOf (p :: (pt ++ tail)) = true :=
      isPrefixOf_append_self (p :: pt) tail
    simp [hpre]
  | cons c cs ih =>
    have ih' : containsSub (p :: pt) (cs ++ (p :: pt) ++ tail) = true := ih
    rw [List.append_assoc] at ih'
    rw [List.append_assoc, List.cons_append, containsSub, ih']
    simp

lemma containsSub_false_of_not_mem (p : Char) (pt s : List Char)
    (h : ∀ c ∈ s, c ≠ p) : containsSub (p :: pt) s = false := by
  induction s with
  | nil => rfl
  | cons c cs ih =>
    rw [containsSub]
    have hc : c ≠ p := h c (List.mem_cons_self c cs)
    have h1 : (p :: pt).isPrefixOf (c :: cs) = false := by
      simp only [List.isPrefixOf]
      have : (p == c) = false := by
        simp [beq_eq_false_iff_ne]
        exact fun hpc => hc hpc.symm
      simp [this]
    rw [h1, ih (fun c hc' => h c (List.mem_cons_of_mem _ hc'))]
    rfl

lemma isPrefixOf_dropWhile_false (pat s : List Char) (q : Char → Bool)
    (h : containsSub pat s = false) : pat.isPrefixOf (List.dropWhile q s) = false := by
  induction s with
  | nil =>
    rw [containsSub] at h
    cases pat with
    | nil => simp at h
    | cons p pt => rfl
  | cons c cs ih =>
    rw [containsSub, Bool.or_eq_false_iff] at h
    rw [List.dropWhile_cons]
    split
    · exact ih h.2
    · exact h.1

lemma searchNumSuffix_eq_none (pat s : List Char)
    (h : containsSub pat s = false) : searchNumSuffix pat s = none := by
  induction s with
  | nil => rfl
  | cons c cs ih =>
    have h' := h
    rw [containsSub, Bool.or_eq_false_iff] at h'
    rw [searchNumSuffix]
    split
    · rw [isPrefixOf_dropWhile_false pat (c :: cs) Char.isDigit h]
      simp [ih h'.2]
    · exact ih h'.2

lemma containsSub_singleton (x : Char) (s : List Char) :
    containsSub [x] s = s.contains x := by
  induction s with
  | nil => rfl
  | cons c cs ih =>
    have h1 : [x].isPrefixOf (c :: cs) = (x == c) := by simp [List.isPrefixOf]
    rw [containsSub, ih, List.contains_cons, h1]

/-! ### The guards in `parse_time` are redundant -/

lemma contains_h_false (s : List Char) (h : ∀ c ∈ s, c ≠ 'h') :
    s.contains 'h' = false := by
  rw [← containsSub_singleton]
  exact containsSub_false_of_not_mem 'h' [] s h

/-- C9 helper: `parse_time` always returns `60·hours + minutes` where the
components come straight from the two regex searches (defaulting to 0);
the `''`, `'h' in`, `'min' in` guards never change the value. -/
theorem parse_time_eq_matched (s : List Char) :
    parse_time s
      = (searchNumSuffix ['h'] s).getD 0 * 60
          + (searchNumSuffix ['m', 'i', 'n'] s).getD 0 := by
  by_cases hnil : s = []
  · subst hnil; rfl
  · rcases Bool.eq_false_or_eq_true (s.contains 'h') with hh | hh <;>
      rcases Bool.eq_false_or_eq_true (containsSub ['m', 'i', 'n'] s) with hm | hm
    · have hmem : 'h' ∈ s := by simpa using hh
      simp [parse_time, hnil, hh, hm, hmem]
    · have hmem : 'h' ∈ s := by simpa using hh
      have h2 : searchNumSuffix ['m', 'i', 'n'] s = none := searchNumSuffix_eq_none _ _ hm
      simp [parse_time, hnil, hh, hm, hmem, h2]
    · have h1 : searchNumSuffix ['h'] s = none := by
        apply searchNumSuffix_eq_none
        rw [containsSub_singleton]; exact hh
      simp [parse_time, hnil, hh, hm, h1]
    · have h1 : searchNumSuffix ['h'] s = none := by
        apply searchNumSuffix_eq_none
        rw [containsSub_singleton]; exact hh
      have h2 : searchNumSuffix ['m', 'i', 'n'] s = none := searchNumSuffix_eq_none _ _ hm
      simp [parse_time, hnil, hh, hm, h1, h2]

/-! ### Round trip: `parse_time ∘ format_time = id` -/

lemma isDigit_ne (c x : Char) (hc : c.isDigit = true) (hx : x.isDigit = false) : c ≠ x := by
  intro h
  subst h
  rw [hc] at hx
  exact Bool.noConfusion hx

lemma parse_time_format_time (t : Nat) : parse_time (format_time t) = t := by
  by_cases ht : t = 0
  · subst ht; decide
  · rw [show format_time t
        = (if t / 60 > 0 ∧ t % 60 > 0 then
            natDigits (t / 60) ++ 'h' :: (natDigits (t % 60) ++ ['m', 'i', 'n'])
          else if t / 60 > 0 then natDigits (t / 60) ++ ['h']
          else natDigits (t % 60) ++ ['m', 'i', 'n']) by
      simp [format_time, ht]]
    by_cases hh : t / 60 > 0
    · by_cases hm : t % 60 > 0
      · rw [if_pos ⟨hh, hm⟩, parse_time_eq_matched]
        have hH : searchNumSuffix ['h']
            (natDigits (t / 60) ++ 'h' :: (natDigits (t % 60) ++ ['m', 'i', 'n']))
              = some (digitsToNat (natDigits (t / 60))) := by
          have h2 := searchNumSuffix_run 'h' [] (natDigits (t / 60))
            (natDigits (t % 60) ++ ['m', 'i', 'n']) (by decide)
            (natDigits_ne_nil _) (natDigits_isDigit _)
          simpa using h2
        have hM : searchNumSuffix ['m', 'i', 'n']
            (natDigits (t / 60) ++ 'h' :: (natDigits (t % 60) ++ ['m', 'i', 'n']))
              = some (digitsToNat (natDigits (t % 60))) := by
          rw [searchNumSuffix_min_skip _ _ (natDigits_isDigit _)]
          have h2 := searchNumSuffix_run 'm' ['i', 'n'] (natDigits (t % 60)) []
            (by decide) (natDigits_ne_nil _) (natDigits_isDigit _)
          simpa using h2
        rw [hH, hM]
        simp only [Option.getD_some, digitsToNat_natDigits]
        omega
      · rw [if_neg (by tauto), if_pos hh, parse_time_eq_matched]
        have hH : searchNumSuffix ['h'] (natDigits (t / 60) ++ ['h'])
            = some (digitsToNat (natDigits (t / 60))) := by
          have h2 := searchNumSuffix_run 'h' [] (natDigits (t / 60)) []
            (by decide) (natDigits_ne_nil _) (natDigits_isDigit _)
          simpa using h2
        have hM : searchNumSuffix ['m', 'i', 'n'] (natDigits (t / 60) ++ ['h'])
            = none := by
          apply searchNumSuffix_eq_none
          apply containsSub_false_of_not_mem
          intro c hc
          rcases List.mem_append.mp hc with h1 | h1
          · exact isDigit_ne c 'm' (natDigits_isDigit _ c h1) (by decide)
          · simp at h1; subst h1; decide
        rw [hH, hM]
        simp only [Option.getD_some, Option.getD_none, digitsToNat_natDigits]
        omega
    · rw [if_neg (by tauto), if_neg hh, parse_time_eq_matched]
      have hH : searchNumSuffix ['h'] (natDigits (t % 60) ++ ['m', 'i', 'n'])
          = none := by
        apply searchNumSuffix_eq_none
        apply containsSub_false_of_not_mem
        intro c hc
        rcases List.mem_append.mp hc with h1 | h1
        · exact isDigit_ne c 'h' (natDigits_isDigit _ c h1) (by decide)
        · simp only [List.mem_cons, List.not_mem_nil, or_false] at h1
          rcases h1 with h1 | h1 | h1 <;> (subst h1; decide)
      have hM : searchNumSuffix ['m', 'i', 'n'] (natDigits (t % 60) ++ ['m', 'i', 'n'])
          = some (digitsToNat (natDigits (t % 60))) := by
        have h2 := searchNumSuffix_run 'm' ['i', 'n'] (natDigits (t % 60)) []
          (by decide) (natDigits_ne_nil _) (natDigits_isDigit _)
        simpa using h2
      rw [hH, hM]
      simp only [Option.getD_some, Option.getD_none, digitsToNat_natDigits]
      omega

/-! ## Claim theorems: C1, C2, C9 -/

/-- C1: for every CVSS score `s` (CVSS scores are non-negative), the
severity derived in `process_scan_results` is CRITICAL iff `s ≥ 9.0`,
HIGH iff `7.0 ≤ s < 9.0`, MEDIUM iff `4.0 ≤ s < 7.0`, LOW iff
`0 < s < 4.0`, and UNKNOWN iff `s = 0`; a score exactly at a threshold
belongs to the higher bucket. -/
theorem claim_C1_severity_buckets (s : ℚ) (hs : 0 ≤ s) :
    (severityOf s = "CRITICAL" ↔ 9 ≤ s)
      ∧ (severityOf s = "HIGH" ↔ 7 ≤ s ∧ s < 9)
      ∧ (severityOf s = "MEDIUM" ↔ 4 ≤ s ∧ s < 7)
      ∧ (severityOf s = "LOW" ↔ 0 < s ∧ s < 4)
      ∧ (severityOf s = "UNKNOWN" ↔ s = 0) := by
  unfold severityOf
  split_ifs with h9 h7 h4 h0 <;>
    refine ⟨?_, ?_, ?_, ?_, ?_⟩ <;>
    constructor <;>
    intro hx <;>
    first
      | linarith
      | rfl
      | (exfalso; revert hx; decide)
      | (exact absurd hx (by decide))
      | (exfalso; rcases hx with ⟨h1, h2⟩; linarith)
      | (constructor <;> linarith)

/-- C1 witness: instantiated at the concrete boundary score 9. -/
theorem claim_C1_severity_buckets_witness :
    severityOf 9 = "CRITICAL" ∧ severityOf (9 - 1/2) = "HIGH" :=
  ⟨(claim_C1_severity_buckets 9 (by norm_num)).1.mpr (by norm_num),
   (claim_C1_severity_buckets (9 - 1/2) (by norm_num)).2.1.mpr (by norm_num)⟩

/-- C2: for every string `s` (in particular every valid duration
string), `format_time (parse_time s)` re-parses to the same total
minutes; moreover `parse_time "0min" = 0` and
`format_time 0 = "0min"`. -/
theorem claim_C2_roundtrip :
    (∀ s : List Char, parse_time (format_time (parse_time s)) = parse_time s)
      ∧ parse_time ("0min".toList) = 0
      ∧ format_time 0 = "0min".toList :=
  ⟨fun s => parse_time_format_time (parse_time s), by decide, by decide⟩

/-- C9: `parse_time` is total on strings and always returns the
non-negative value `60·hours + minutes`, where `hours` and `minutes`
are the regex-matched components, each defaulting to 0 — including on
the empty string, digit-free strings, and one-component strings. -/
theorem claim_C9_parse_time_total (s : List Char) :
    parse_time s
      = (searchNumSuffix ['h'] s).getD 0 * 60
          + (searchNumSuffix ['m', 'i', 'n'] s).getD 0 :=
  parse_time_eq_matched s

/-! ## Scan-result aggregation (`process_scan_results`, `ow.py`)

A parsed Dependency-Check JSON report is a list of dependencies, each
with a list of vulnerabilities; a vulnerability's CVSS score is
`cvssv3.baseScore` when present, else `cvssv2.score`, else 0.  A falsy
report (`if not scan_result`) is modelled as `none`. -/

structure Vuln where
  vName : String
  cvssv3 : Option ℚ
  cvssv2 : Option ℚ
deriving DecidableEq, Repr

structure Dependency where
  fileName : String
  filePath : String
  vulnerabilities : List Vuln
deriving DecidableEq, Repr

structure SummaryRow where
  projectName : String
  criticalSeverityCount : Nat
  highSeverityCount : Nat
  mediumSeverityCount : Nat
  lowSeverityCount : Nat
  totalVulnerabilities : Nat
deriving DecidableEq, Repr

structure DetailRow where
  projectName : String
  packageName : String
  vulnerabilityId : String
  packagePath : String
  severity : String
  cvssScore : ℚ
deriving DecidableEq, Repr

/-- `cvss_score = cvss_v3.get('baseScore', cvss_v2.get('score', 0))`. -/
def vulnScore (v : Vuln) : ℚ := v.cvssv3.getD (v.cvssv2.getD 0)

structure Counters where
  crit : Nat
  high : Nat
  med : Nat
  low : Nat
  total : Nat
deriving DecidableEq, Repr

/-- The per-vulnerability loop body of `process_scan_results`: derive the
severity, bump the matching counter, bump the total when the severity is
not UNKNOWN. -/
def countVuln (c : Counters) (v : Vuln) : Counters × String :=
  let s := vulnScore v
  let (sev, c1) :=
    if 9 ≤ s then ("CRITICAL", { c with crit := c.crit + 1 })
    else if 7 ≤ s then ("HIGH", { c with high := c.high + 1 })
    else if 4 ≤ s then ("MEDIUM", { c with med := c.med + 1 })
    else if 0 < s then ("LOW", { c with low := c.low + 1 })
    else ("UNKNOWN", c)
  let c2 := if sev ≠ "UNKNOWN" then { c1 with total := c1.total + 1 } else c1
  (c2, sev)

/-- One iteration of the vulnerability loop: update the counters and
append the detail row. -/
def stepVuln (projectName : String) (d : Dependency)
    (acc : Counters × List DetailRow) (v : Vuln) : Counters × List DetailRow :=
  ((countVuln acc.1 v).1,
   acc.2 ++ [{ projectName := projectName, packageName := d.fileName,
               vulnerabilityId := v.vName, packagePath := d.filePath,
               severity := (countVuln acc.1 v).2, cvssScore := vulnScore v }])

/-- The per-dependency loop: process every vulnerability, appending one
detail row per vulnerability (dependencies with no vulnerabilities are
skipped by `continue`, which appends nothing). -/
def processDependency (projectName : String) (st : Counters × List DetailRow)
    (d : Dependency) : Counters × List DetailRow :=
  d.vulnerabilities.foldl (stepVuln projectName d) st

/-- Summary row and detail rows contributed by one project's report. -/
def projectResults (projectName : String) (scanResult : Option (List Dependency)) :
    SummaryRow × List DetailRow :=
  match scanResult with
  | none =>
    ({ projectName := projectName, criticalSeverityCount := 0, highSeverityCount := 0,
       mediumSeverityCount := 0, lowSeverityCount := 0, totalVulnerabilities := 0 }, [])
  | some deps =>
    let (c, rows) := deps.foldl (processDependency projectName) (⟨0, 0, 0, 0, 0⟩, [])
    ({ projectName := projectName, criticalSeverityCount := c.crit,
       highSeverityCount := c.high, mediumSeverityCount := c.med,
       lowSeverityCount := c.low, totalVulnerabilities := c.total }, rows)

/-- `process_scan_results`: appends one summary row to `summary_data`
and the project's detail rows to `detailed_data`. -/
def process_scan_results (projectName : String) (scanResult : Option (List Dependency))
    (summaryData : List SummaryRow) (detailedData : List DetailRow) :
    List SummaryRow × List DetailRow :=
  ((summaryData ++ [(projectResults projectName scanResult).1]),
   (detailedData ++ (projectResults projectName scanResult).2))

/-! ### C3: counters versus detail rows -/

lemma countVuln_eq (c : Counters) (v : Vuln) :
    countVuln c v =
      if 9 ≤ vulnScore v then
        ({ c with crit := c.crit + 1, total := c.total + 1 }, "CRITICAL")
      else if 7 ≤ vulnScore v then
        ({ c with high := c.high + 1, total := c.total + 1 }, "HIGH")
      else if 4 ≤ vulnScore v then
        ({ c with med := c.med + 1, total := c.total + 1 }, "MEDIUM")
      else if 0 < vulnScore v then
        ({ c with low := c.low + 1, total := c.total + 1 }, "LOW")
      else (c, "UNKNOWN") := by
  unfold countVuln
  by_cases h9 : 9 ≤ vulnScore v
  · simp [h9]
  · by_cases h7 : 7 ≤ vulnScore v
    · simp [h9, h7]
    · by_cases h4 : 4 ≤ vulnScore v
      · simp [h9, h7, h4]
      · by_cases h0 : 0 < vulnScore v
        · simp [h9, h7, h4, h0]
        · simp [h9, h7, h4, h0]

/-- The invariant relating the counters to the detail rows collected so
far: the four severity counters sum to the total, and the total counts
the rows whose severity is not UNKNOWN. -/
def countersMatchRows (st : Counters × List DetailRow) : Prop :=
  st.1.crit + st.1.high + st.1.med + st.1.low = st.1.total
    ∧ st.1.total = (st.2.filter (fun r => r.severity ≠ "UNKNOWN")).length

lemma stepVuln_inv (pn : String) (d : Dependency) (st : Counters × List DetailRow)
    (v : Vuln) (h : countersMatchRows st) : countersMatchRows (stepVuln pn d st v) := by
  obtain ⟨h1, h2⟩ := h
  unfold countersMatchRows stepVuln
  rw [countVuln_eq]
  split_ifs <;> simp_all [List.filter_append] <;> omega

lemma foldVulns_inv (pn : String) (d : Dependency) (vs : List Vuln) :
    ∀ st : Counters × List DetailRow, countersMatchRows st →
      countersMatchRows (vs.foldl (stepVuln pn d) st) := by
  induction vs with
  | nil => intro st h; exact h
  | cons v vs ih =>
    intro st h
    exact ih _ (stepVuln_inv pn d st v h)

lemma foldDeps_inv (pn : String) (deps : List Dependency) :
    ∀ st : Counters × List DetailRow, countersMatchRows st →
      countersMatchRows (deps.foldl (processDependency pn) st) := by
  induction deps with
  | nil => intro st h; exact h
  | cons d ds ih =>
    intro st h
    exact ih _ (foldVulns_inv pn d d.vulnerabilities st h)

lemma projectResults_inv (pn : String) (sr : Option (List Dependency)) :
    (projectResults pn sr).1.criticalSeverityCount
        + (projectResults pn sr).1.highSeverityCount
        + (projectResults pn sr).1.mediumSeverityCount
        + (projectResults pn sr).1.lowSeverityCount
      = (projectResults pn sr).1.totalVulnerabilities
    ∧ (projectResults pn sr).1.totalVulnerabilities
      = ((projectResults pn sr).2.filter (fun r => r.severity ≠ "UNKNOWN")).length := by
  cases sr with
  | none => simp [projectResults]
  | some deps =>
    have h := foldDeps_inv pn deps (⟨0, 0, 0, 0, 0⟩, []) (by simp [countersMatchRows])
    obtain ⟨h1, h2⟩ := h
    constructor
    · simpa [projectResults] using h1
    · simpa [projectResults] using h2

/-- A project report with a single vulnerability that carries no CVSS
data at all (score defaults to 0, severity UNKNOWN). -/
def c3Report : Option (List Dependency) :=
  some [{ fileName := "lib-1.0.jar", filePath := "/repo/lib-1.0.jar",
          vulnerabilities := [{ vName := "CVE-2020-0001", cvssv3 := none, cvssv2 := none }] }]

/-- C3 counterexample: for the project report `c3Report` (one
vulnerability with no CVSS score), the summary counters sum to 0 but
one detail row is appended, so the sum of the per-severity counters
does not equal the number of detail rows appended for the project. -/
theorem claim_C3_counterexample :
    (process_scan_results "p" c3Report [] []).1
        = [{ projectName := "p", criticalSeverityCount := 0, highSeverityCount := 0,
             mediumSeverityCount := 0, lowSeverityCount := 0, totalVulnerabilities := 0 }]
      ∧ (process_scan_results "p" c3Report [] []).2.length = 1
      ∧ (0 : Nat) + 0 + 0 + 0 ≠ 1 := by
  refine ⟨?_, ?_, by decide⟩ <;> rfl

/-- C3 as amended: the summary row appended by `process_scan_results`
has non-negative counters whose per-severity sum equals
`totalVulnerabilities`, and that total equals the number of detail rows
appended for the project **whose severity is not UNKNOWN** (rows for
zero-score vulnerabilities are appended but not counted). -/
theorem claim_C3_amended (pn : String) (sr : Option (List Dependency))
    (summaryData : List SummaryRow) (detailedData : List DetailRow) :
    process_scan_results pn sr summaryData detailedData
        = (summaryData ++ [(projectResults pn sr).1],
           detailedData ++ (projectResults pn sr).2)
      ∧ (projectResults pn sr).1.criticalSeverityCount
          + (projectResults pn sr).1.highSeverityCount
          + (projectResults pn sr).1.mediumSeverityCount
          + (projectResults pn sr).1.lowSeverityCount
        = (projectResults pn sr).1.totalVulnerabilities
      ∧ (projectResults pn sr).1.totalVulnerabilities
        = ((projectResults pn sr).2.filter (fun r => r.severity ≠ "UNKNOWN")).length :=
  ⟨rfl, (projectResults_inv pn sr).1, (projectResults_inv pn sr).2⟩

/-! ## Batch processing with per-item timeout (`rq2script.py`)

`main` walks the enumerated git projects; for each, `process_with_timeout`
either yields a result row (`some`) or `None` on timeout/error.  A result
appends to `project_data`, a `None` appends the project name to
`skipped_projects`; the CSV is written only when `project_data` is
non-empty and the skipped log only when `skipped_projects` is non-empty. -/

structure RQ2Row where
  project : String
  avgCommitsPerDay : ℚ
  avgLinesAddedPerCommit : ℚ
  avgLinesDeletedPerCommit : ℚ
deriving DecidableEq, Repr

/-- The per-project loop of `main` in `rq2script.py`: each enumerated
item is the project name paired with the outcome of
`process_with_timeout` (`none` = timeout or error). -/
def rq2Main : List (String × Option RQ2Row) → List RQ2Row × List String
  | [] => ([], [])
  | (nm, res) :: rest =>
    let (dat, skipped) := rq2Main rest
    match res with
    | some row => (row :: dat, skipped)
    | none => (dat, nm :: skipped)

/-- The rows written to the output CSV (`none` when no data was
collected and no CSV is written). -/
def rq2Csv (items : List (String × Option RQ2Row)) : Option (List RQ2Row) :=
  if (rq2Main items).1 = [] then none else some (rq2Main items).1

/-- The names written to `skipped_projects.txt` (`none` when nothing was
skipped and no log is written). -/
def rq2SkippedLog (items : List (String × Option RQ2Row)) : Option (List String) :=
  if (rq2Main items).2 = [] then none else some (rq2Main items).2

/-- C4: for a batch of N enumerated projects of which k fail or time
out, the collected table has exactly the N−k successful rows in input
order, the skipped log lists exactly the k failed project names in
input order, and every item is processed (no failure aborts the rest:
each input item lands in exactly one of the two outputs). -/
theorem claim_C4_batch_resilience (items : List (String × Option RQ2Row)) :
    (rq2Main items).1 = items.filterMap Prod.snd
      ∧ (rq2Main items).2
        = (items.filter (fun i => i.2 = none)).map Prod.fst
      ∧ (rq2Main items).1.length + (rq2Main items).2.length = items.length
      ∧ (rq2Main items).1.length
        = items.length - (items.filter (fun i => i.2 = none)).length
      ∧ (rq2Csv items).getD [] = (rq2Main items).1
      ∧ (rq2SkippedLog items).getD [] = (rq2Main items).2 := by
  have hmain : (rq2Main items).1 = items.filterMap Prod.snd
      ∧ (rq2Main items).2 = (items.filter (fun i => i.2 = none)).map Prod.fst := by
    induction items with
    | nil => exact ⟨rfl, rfl⟩
    | cons it rest ih =>
      obtain ⟨nm, res⟩ := it
      cases res with
      | some row =>
        simp only [rq2Main, ih.1, ih.2]
        constructor
        · simp [List.filterMap_cons]
        · simp [List.filter_cons]
      | none =>
        simp only [rq2Main, ih.1, ih.2]
        constructor
        · simp [List.filterMap_cons]
        · simp [List.filter_cons]
  have hlen : (rq2Main items).1.length + (rq2Main items).2.length = items.length := by
    clear hmain
    induction items with
    | nil => rfl
    | cons it rest ih =>
      obtain ⟨nm, res⟩ := it
      cases res with
      | some row =>
        simp only [rq2Main, List.length_cons]
        omega
      | none =>
        simp only [rq2Main, List.length_cons]
        omega
  refine ⟨hmain.1, hmain.2, hlen, ?_, ?_, ?_⟩
  · have h2 : (rq2Main items).2.length
        = (items.filter (fun i => i.2 = none)).length := by
      rw [hmain.2, List.length_map]
    omega
  · unfold rq2Csv
    split
    · rename_i h; simp [h]
    · rfl
  · unfold rq2SkippedLog
    split
    · rename_i h; simp [h]
    · rfl

/-! ## Rate-limited API client (`GitHubScraper._make_request`,
`github_spider.py`)

The `while True` loop is modelled over the sequence of HTTP responses
the server returns for the (fixed) request; each response records the
value of `time.time()` observed while handling it and the
`X-RateLimit-Reset` header when present.  The loop returns
`response.json()` on 200, sleeps and retries on a 403 whose body
mentions the rate limit, and returns the `None` sentinel on a 422
first-1000-results response; any other status raises, which the
enclosing `except` turns into `None` as well. -/

structure HttpResponse where
  status : Nat
  text : List Char
  resetHeader : Option Int
  body : String
  time : ℚ
deriving DecidableEq

/-- `'rate limit exceeded' in response.text.lower()`. -/
def isRateLimitResponse (r : HttpResponse) : Bool :=
  r.status = 403 && containsSub ("rate limit exceeded".toList) (r.text.map Char.toLower)

/-- `'Only the first 1000 search results are available' in response.text`. -/
def isResultWindowLimit (r : HttpResponse) : Bool :=
  r.status = 422
    && containsSub ("Only the first 1000 search results are available".toList) r.text

/-- `sleep_time = max(reset_time - time.time(), 0) + 1` with
`reset_time = int(response.headers.get('X-RateLimit-Reset', 0))`. -/
def sleepTime (r : HttpResponse) : ℚ := max ((r.resetHeader.getD 0 : ℚ) - r.time) 0 + 1

/-- `_make_request` over a finite trace of responses: the first
component is `none` while the trace is exhausted with the loop still
retrying, `some (some body)` on a 200, and `some none` for both the
422-limit sentinel and the raise-then-caught error path; the second
component records the sleeps performed before finishing. -/
def makeRequest : List HttpResponse → Option (Option String) × List ℚ
  | [] => (none, [])
  | r :: rest =>
    if r.status = 200 then (some (some r.body), [])
    else if isRateLimitResponse r then
      ((makeRequest rest).1, sleepTime r :: (makeRequest rest).2)
    else if isResultWindowLimit r then (some none, [])
    else (some none, [])

/-- C5: after any number of rate-limited 403 responses the client is
still retrying the same request (no retry cap) having slept past each
provider reset time; the next decisive response settles it — a 200
returns its payload, and a 422 first-1000-results response returns the
`None` sentinel (it is swallowed, not raised, exactly like the caught
error path). -/
theorem claim_C5_rate_limit_retry (pre rest : List HttpResponse) (r : HttpResponse)
    (hpre : ∀ x ∈ pre, isRateLimitResponse x = true) :
    (makeRequest pre = (none, pre.map sleepTime))
      ∧ (r.status = 200 →
          makeRequest (pre ++ r :: rest) = (some (some r.body), pre.map sleepTime))
      ∧ (isResultWindowLimit r = true →
          makeRequest (pre ++ r :: rest) = (some none, pre.map sleepTime))
      ∧ (∀ x ∈ pre, (x.resetHeader.getD 0 : ℚ) < x.time + sleepTime x) := by
  refine ⟨?_, ?_, ?_, ?_⟩
  · induction pre with
    | nil => rfl
    | cons p ps ih =>
      have hp : isRateLimitResponse p = true := hpre p (List.mem_cons_self p ps)
      have hps : ∀ x ∈ ps, isRateLimitResponse x = true :=
        fun x hx => hpre x (List.mem_cons_of_mem p hx)
      have h200 : ¬ p.status = 200 := by
        intro h
        have : p.status = 403 := by
          have := hp
          unfold isRateLimitResponse at this
          simp at this
          exact this.1
        omega
      rw [makeRequest.eq_def]
      simp only [if_neg h200, hp, if_true]
      rw [ih hps]
      simp
  · intro h200
    induction pre with
    | nil =>
      rw [List.nil_append, makeRequest.eq_def]
      simp [h200]
    | cons p ps ih =>
      have hp : isRateLimitResponse p = true := hpre p (List.mem_cons_self p ps)
      have hps : ∀ x ∈ ps, isRateLimitResponse x = true :=
        fun x hx => hpre x (List.mem_cons_of_mem p hx)
      have hst : ¬ p.status = 200 := by
        intro h
        have : p.status = 403 := by
          have := hp
          unfold isRateLimitResponse at this
          simp at this
          exact this.1
        omega
      rw [List.cons_append, makeRequest.eq_def]
      simp only [if_neg hst, hp, if_true]
      rw [ih hps]
      simp
  · intro hlim
    induction pre with
    | nil =>
      have hst : ¬ r.status = 200 := by
        intro h
        have : r.status = 422 := by
          have := hlim
          unfold isResultWindowLimit at this
          simp at this
          exact this.1
        omega
      have hrl : isRateLimitResponse r = false := by
        unfold isRateLimitResponse
        have : r.status = 422 := by
          have := hlim
          unfold isResultWindowLimit at this
          simp at this
          exact this.1
        simp [this]
      rw [List.nil_append, makeRequest.eq_def]
      simp [hst, hrl, hlim]
    | cons p ps ih =>
      have hp : isRateLimitResponse p = true := hpre p (List.mem_cons_self p ps)
      have hps : ∀ x ∈ ps, isRateLimitResponse x = true :=
        fun x hx => hpre x (List.mem_cons_of_mem p hx)
      have hst : ¬ p.status = 200 := by
        intro h
        have : p.status = 403 := by
          have := hp
          unfold isRateLimitResponse at this
          simp at this
          exact this.1
        omega
      rw [List.cons_append, makeRequest.eq_def]
      simp only [if_neg hst, hp, if_true]
      rw [ih hps]
      simp
  · intro x _
    unfold sleepTime
    have h1 : ((x.resetHeader.getD 0 : ℚ) - x.time) ≤ max ((x.resetHeader.getD 0 : ℚ) - x.time) 0 :=
      le_max_left _ _
    linarith

/-- Concrete responses for the C5 witness. -/
def c5RateLimited : HttpResponse :=
  { status := 403, text := "API rate limit exceeded".toList,
    resetHeader := some 100, body := "", time := 40 }

/-- Concrete 200 response for the C5 witness. -/
def c5Ok : HttpResponse :=
  { status := 200, text := [], resetHeader := none, body := "payload", time := 45 }

/-- C5 witness: one rate-limited 403 (reset at t=100, observed at t=40)
followed by a 200 carrying `"payload"`: the client sleeps 61 seconds
(past the reset) and then returns the payload. -/
theorem claim_C5_rate_limit_retry_witness :
    makeRequest [c5RateLimited, c5Ok] = (some (some "payload"), [61]) := by
  have h := claim_C5_rate_limit_retry [c5RateLimited] [] c5Ok
    (by intro x hx; simp at hx; subst hx; decide)
  have h2 := h.2.1 rfl
  have h3 : List.map sleepTime [c5RateLimited] = [61] := by
    norm_num [sleepTime, c5RateLimited]
  rw [h3] at h2
  exact h2

/-! ## Repository time-travel (`revert_repos_to_date`, `revert_repos.py`)

Each repository is modelled with the observable git state the script
queries: the stdout of `git symbolic-ref refs/remotes/origin/HEAD` when
it succeeds, the local branch list (`git branch --list <name>` prints a
line iff a local branch matches), the currently checked-out branch, and
the set of commits across all branches with their timestamps
(`git rev-list -n 1 --before=<deadline> --all`). -/

structure Commit where
  hash : String
  date : Int
deriving DecidableEq, Repr

structure GitRepo where
  name : String
  remoteHead : Option String
  localBranches : List String
  currentBranch : String
  commits : List Commit
deriving DecidableEq, Repr

/-- Split a character list on a separator character (Python `split`). -/
def splitOnChar (sep : Char) : List Char → List (List Char)
  | [] => [[]]
  | c :: cs =>
    if c = sep then [] :: splitOnChar sep cs
    else
      match splitOnChar sep cs with
      | [] => [[c]]
      | p :: ps => (c :: p) :: ps

/-- `result.stdout.strip().split('/')[-1]`. -/
def lastComponent (s : String) : String :=
  ((splitOnChar '/' s.toList).getLastD []).asString

/-- Default-branch resolution in `revert_repos_to_date`: the remote HEAD
symbolic ref when it resolves, else the first of main/master with a
matching local branch, else the current branch. -/
def resolveDefaultBranch (r : GitRepo) : String :=
  match r.remoteHead with
  | some out => lastComponent out
  | none =>
    if r.localBranches.contains "main" then "main"
    else if r.localBranches.contains "master" then "master"
    else r.currentBranch

/-- `git rev-list -n 1 --before=<deadline> --all`: the most recent
commit dated at or before the deadline, `none` when there is none. -/
def latestCommitBefore (deadline : Int) (cs : List Commit) : Option Commit :=
  cs.foldl
    (fun acc c =>
      if c.date ≤ deadline then
        match acc with
        | none => some c
        | some b => if b.date < c.date then some c else some b
      else acc)
    none

/-- Observable git actions the script performs on a repository. -/
inductive GitAction where
  | checkout : String → GitAction
  | reset : String → GitAction
deriving DecidableEq, Repr

/-- Processing of one repository: check out the resolved default branch,
look up the most recent commit at or before the deadline; if none
exists, perform no reset and record the failure, otherwise hard-reset to
that commit. -/
def processRepo (deadline : Int) (r : GitRepo) :
    List GitAction × List (String × String) :=
  let b := resolveDefaultBranch r
  match latestCommitBefore deadline r.commits with
  | none => ([GitAction.checkout b], [(r.name, "No commits found before target date")])
  | some c => ([GitAction.checkout b, GitAction.reset c.hash], [])

/-- The batch loop of `revert_repos_to_date`: every repository is
processed; per-repository failures are appended to `failed_projects`
and the loop continues. -/
def revert_repos_to_date (deadline : Int) :
    List GitRepo → List (String × List GitAction) × List (String × String)
  | [] => ([], [])
  | r :: rs =>
    ((r.name, (processRepo deadline r).1) :: (revert_repos_to_date deadline rs).1,
     (processRepo deadline r).2 ++ (revert_repos_to_date deadline rs).2)

/-- C6: if a repository has no commit at or before the deadline, it is
not reset (its action trace holds no `reset`), it is recorded in the
failed-projects log with the "no commits found" reason, and every
repository of the batch (before and after it) is still processed. -/
theorem claim_C6_no_commit_skips (deadline : Int) (pre post : List GitRepo)
    (r : GitRepo) (hno : ∀ c ∈ r.commits, deadline < c.date) :
    (processRepo deadline r
        = ([GitAction.checkout (resolveDefaultBranch r)],
           [(r.name, "No commits found before target date")]))
      ∧ (∀ h, GitAction.reset h ∉ (processRepo deadline r).1)
      ∧ ((r.name, "No commits found before target date")
          ∈ (revert_repos_to_date deadline (pre ++ r :: post)).2)
      ∧ ((revert_repos_to_date deadline (pre ++ r :: post)).1.map Prod.fst
          = (pre ++ r :: post).map GitRepo.name) := by
  have hnone : latestCommitBefore deadline r.commits = none := by
    have key : ∀ cs : List Commit, (∀ c ∈ cs, deadline < c.date) →
        ∀ acc, (cs.foldl
          (fun acc c =>
            if c.date ≤ deadline then
              match acc with
              | none => some c
              | some b => if b.date < c.date then some c else some b
            else acc) acc) = acc := by
      intro cs
      induction cs with
      | nil => intro _ acc; rfl
      | cons c cs ih =>
        intro hcs acc
        have hc : deadline < c.date := hcs c (List.mem_cons_self c cs)
        have hcs' : ∀ x ∈ cs, deadline < x.date :=
          fun x hx => hcs x (List.mem_cons_of_mem c hx)
        rw [List.foldl_cons, if_neg (by omega)]
        exact ih hcs' acc
    exact key r.commits hno none
  have hproc : processRepo deadline r
      = ([GitAction.checkout (resolveDefaultBranch r)],
         [(r.name, "No commits found before target date")]) := by
    unfold processRepo
    rw [hnone]
  refine ⟨hproc, ?_, ?_, ?_⟩
  · intro h
    rw [hproc]
    simp
  · induction pre with
    | nil =>
      rw [List.nil_append, revert_repos_to_date, hproc]
      simp
    | cons p ps ih =>
      rw [List.cons_append, revert_repos_to_date]
      simp only [List.mem_append]
      right
      simpa using ih
  · induction pre with
    | nil =>
      induction post with
      | nil => simp [revert_repos_to_date]
      | cons q qs ihq =>
        rw [List.nil_append, revert_repos_to_date] at ihq ⊢
        simp_all [revert_repos_to_date]
    | cons p ps ih =>
      rw [List.cons_append, revert_repos_to_date]
      simpa using ih

/-- C6 witness: a repository whose only commit is dated after the
deadline, sandwiched between two healthy repositories. -/
def lateRepo : GitRepo :=
  { name := "late", remoteHead := none, localBranches := ["main"],
    currentBranch := "main", commits := [{ hash := "aaa", date := 5 }] }

def earlyRepo : GitRepo :=
  { name := "early", remoteHead := none, localBranches := ["main"],
    currentBranch := "main", commits := [{ hash := "bbb", date := -3 }] }

theorem claim_C6_no_commit_skips_witness :
    (processRepo 0 lateRepo
      = ([GitAction.checkout "main"],
         [("late", "No commits found before target date")]))
      ∧ (("late", "No commits found before target date")
          ∈ (revert_repos_to_date 0 [earlyRepo, lateRepo]).2) := by
  have h := claim_C6_no_commit_skips 0 [earlyRepo] [] lateRepo
    (by intro c hc; simp [lateRepo] at hc; subst hc; decide)
  exact ⟨h.1, h.2.2.1⟩

/-- C7: the default branch is resolved in exactly this order: the
remote HEAD symbolic reference when it resolves (its last path
component); otherwise "main", then "master", whichever first has a
matching local branch; otherwise the currently checked-out branch. -/
theorem claim_C7_default_branch_order (r : GitRepo) :
    (∀ out, r.remoteHead = some out → resolveDefaultBranch r = lastComponent out)
      ∧ (r.remoteHead = none → r.localBranches.contains "main" = true →
          resolveDefaultBranch r = "main")
      ∧ (r.remoteHead = none → r.localBranches.contains "main" = false →
          r.localBranches.contains "master" = true →
          resolveDefaultBranch r = "master")
      ∧ (r.remoteHead = none → r.localBranches.contains "main" = false →
          r.localBranches.contains "master" = false →
          resolveDefaultBranch r = r.currentBranch) := by
  refine ⟨?_, ?_, ?_, ?_⟩
  · intro out hout
    unfold resolveDefaultBranch
    rw [hout]
  · intro hnone hmain
    have hmem : "main" ∈ r.localBranches := by simpa using hmain
    unfold resolveDefaultBranch
    rw [hnone]
    simp [hmem]
  · intro hnone hmain hmaster
    have hnmem : "main" ∉ r.localBranches := by simpa using hmain
    have hmem : "master" ∈ r.localBranches := by simpa using hmaster
    unfold resolveDefaultBranch
    rw [hnone]
    simp [hnmem, hmem]
  · intro hnone hmain hmaster
    have hn1 : "main" ∉ r.localBranches := by simpa using hmain
    have hn2 : "master" ∉ r.localBranches := by simpa using hmaster
    unfold resolveDefaultBranch
    rw [hnone]
    simp [hn1, hn2]

/-- C7 witness: the remote HEAD wins when present; with no remote HEAD
and only a master branch, master is chosen; with neither, the current
branch is kept. -/
def repoWithRemoteHead : GitRepo :=
  { name := "a", remoteHead := some "refs/remotes/origin/trunk",
    localBranches := ["main", "master"], currentBranch := "dev", commits := [] }

def repoWithMasterOnly : GitRepo :=
  { name := "b", remoteHead := none, localBranches := ["master", "feature"],
    currentBranch := "dev", commits := [] }

def repoWithNeither : GitRepo :=
  { name := "c", remoteHead := none, localBranches := ["feature"],
    currentBranch := "dev", commits := [] }

theorem claim_C7_default_branch_order_witness :
    resolveDefaultBranch repoWithRemoteHead = "trunk"
      ∧ resolveDefaultBranch repoWithMasterOnly = "master"
      ∧ resolveDefaultBranch repoWithNeither = "dev" := by
  refine ⟨?_, ?_, ?_⟩
  · have h := (claim_C7_default_branch_order repoWithRemoteHead).1
      "refs/remotes/origin/trunk" rfl
    rw [h]
    decide
  · exact (claim_C7_default_branch_order repoWithMasterOnly).2.2.1 rfl
      (by decide) (by decide)
  · exact (claim_C7_default_branch_order repoWithNeither).2.2.2 rfl
      (by decide) (by decide)

/-! ## Contributor counting (`get_contributors.py`)

`process_csv_with_specific_columns` walks the CSV rows in order; for
each row the stripped `html_url` is parsed with `parse_github_url`
(stdlib `urlparse` restricted to the `scheme://netloc/path` shapes in
play: with no `"://"` in the input, `urlparse` yields an empty netloc
and the whole input as path, which is what the model returns).  The
contributor fetch (GraphQL with REST fallback) is abstracted as an
oracle from owner and repo to a count. -/

/-- Python `str.strip` with an arbitrary character class. -/
def pyStrip (p : Char → Bool) (s : List Char) : List Char :=
  ((s.dropWhile p).reverse.dropWhile p).reverse

/-- Remainder of `s` after the first occurrence of `pat`
(`none` when `pat` does not occur). -/
def dropThroughSub (pat : List Char) : List Char → Option (List Char)
  | [] => if pat.isEmpty then some [] else none
  | c :: cs =>
    if pat.isPrefixOf (c :: cs) then some ((c :: cs).drop pat.length)
    else dropThroughSub pat cs

/-- `urlparse(u).netloc` and `urlparse(u).path` for the URL shapes in
play (`scheme://netloc/path...` or a scheme-less string). -/
def urlNetlocPath (s : List Char) : List Char × List Char :=
  match dropThroughSub ("://".toList) s with
  | some rest => (rest.takeWhile (fun c => c ≠ '/'), rest.dropWhile (fun c => c ≠ '/'))
  | none => ([], s)

/-- `parse_github_url`: owner and repo from a GitHub URL, `None, None`
(modelled `none`) when the path has fewer than two components or the
host is not github.com. -/
def parse_github_url (url : List Char) : Option (List Char × List Char) :=
  let netloc := (urlNetlocPath url).1
  let path_parts := splitOnChar '/' (pyStrip (fun c => c = '/') (urlNetlocPath url).2)
  if path_parts.length < 2 ∨ netloc ≠ "github.com".toList then none
  else
    match path_parts with
    | a :: b :: _ => some (a, b)
    | _ => none

/-- An input CSV row; only `html_url` participates in the control flow
(the other required columns are copied through unchanged). -/
structure CsvRow where
  html_url : List Char
deriving DecidableEq, Repr

/-- An output row: the copied columns plus `contributors_count`. -/
structure OutRow where
  html_url : List Char
  contributors_count : Nat
deriving DecidableEq, Repr

/-- The per-row body of `process_csv_with_specific_columns`: fetch a
count only when the stripped URL is non-empty, mentions github.com and
parses to a truthy owner and repo; otherwise `contributors_count = 0`. -/
def processRow (fetch : List Char → List Char → Nat) (row : CsvRow) : OutRow :=
  let u := pyStrip Char.isWhitespace row.html_url
  if u ≠ [] ∧ containsSub ("github.com".toList) u then
    match parse_github_url u with
    | some (o, r) =>
      if o ≠ [] ∧ r ≠ [] then
        { html_url := row.html_url, contributors_count := fetch o r }
      else { html_url := row.html_url, contributors_count := 0 }
    | none => { html_url := row.html_url, contributors_count := 0 }
  else { html_url := row.html_url, contributors_count := 0 }

/-- `process_csv_with_specific_columns`: every row is processed and
appended in input order. -/
def process_csv_with_specific_columns (fetch : List Char → List Char → Nat)
    (rows : List CsvRow) : List OutRow :=
  rows.map (processRow fetch)

/-- C8: for the input rows `[{html_url: "https://github.com/a/b"},
{html_url: ""}]` and any contributor oracle, the output has exactly two
rows in input order: the first carries the fetched count for owner `a`
and repo `b`, the second carries 0, and neither row is dropped. -/
theorem claim_C8_contributor_rows (fetch : List Char → List Char → Nat) :
    process_csv_with_specific_columns fetch
        [{ html_url := "https://github.com/a/b".toList }, { html_url := "".toList }]
      = [{ html_url := "https://github.com/a/b".toList,
           contributors_count := fetch ("a".toList) ("b".toList) },
         { html_url := "".toList, contributors_count := 0 }] := rfl

/-! ## CSV repository filter (`GitHubCSVFilter.filter_repositories`,
`github_csv_filter.py`)

Rows loaded by `csv.DictReader` carry string-valued fields (`none`
models a missing column, for which `row.get(key, 0)` yields the integer
0).  `int(...)` on a non-numeric string raises `ValueError`, which
`filter_repositories` does not catch, so the embedding returns
`Except`. -/

structure RepoRow where
  stargazers_count : Option (List Char)
  open_issues_count : Option (List Char)
  topics : Option (List Char)
  full_name : Option (List Char)
deriving DecidableEq, Repr

/-- Python `int(...)` on a string: optional surrounding whitespace, an
optional sign, then decimal digits; anything else raises (`none`). -/
def pyStrToInt (s : List Char) : Option Int :=
  let t := pyStrip Char.isWhitespace s
  match t with
  | [] => none
  | '+' :: ds =>
    if ds ≠ [] ∧ ds.all Char.isDigit then some (digitsToNat ds : Int) else none
  | '-' :: ds =>
    if ds ≠ [] ∧ ds.all Char.isDigit then some (-(digitsToNat ds : Int)) else none
  | ds => if ds.all Char.isDigit then some (digitsToNat ds : Int) else none

/-- `int(repo.get(key, 0))`: a missing column defaults to the integer 0,
a present column is converted from its string. -/
def intOfField : Option (List Char) → Option Int
  | none => some 0
  | some s => pyStrToInt s

/-- Topic count: `repo.get('topics', '[]')`, strip `[`/`]` from the
ends, delete all quote characters, split on commas, count the pieces
that are non-blank after stripping. -/
def topicCount (r : RepoRow) : Nat :=
  let ts := r.topics.getD ("[]".toList)
  let s1 := pyStrip (fun c => c = '[' ∨ c = ']') ts
  let s2 := s1.filter (fun c => c ≠ Char.ofNat 39 ∧ c ≠ '"')
  (((splitOnChar ',' s2).map (pyStrip Char.isWhitespace)).filter (fun t => t ≠ [])).length

/-- The filter predicate of `filter_repositories` (defined only when
both numeric fields convert). -/
def repoPasses (minStars minIssues minTopics : Int) (r : RepoRow) : Bool :=
  match intOfField r.stargazers_count, intOfField r.open_issues_count with
  | some stars, some issues =>
    decide (minStars ≤ stars) && decide (minIssues ≤ issues)
      && decide (minTopics ≤ (topicCount r : Int))
  | _, _ => false

/-- `filter_repositories`: walk the loaded rows in order, keep those
meeting all three thresholds; a row whose numeric field fails `int(...)`
raises out of the loop. -/
def filter_repositories : List RepoRow → Int → Int → Int → Except String (List RepoRow)
  | [], _, _, _ => Except.ok []
  | r :: rs, minStars, minIssues, minTopics =>
    match intOfField r.stargazers_count, intOfField r.open_issues_count with
    | some stars, some issues =>
      match filter_repositories rs minStars minIssues minTopics with
      | Except.ok rest =>
        Except.ok
          (if minStars ≤ stars ∧ minIssues ≤ issues ∧ minTopics ≤ (topicCount r : Int)
           then r :: rest else rest)
      | Except.error e => Except.error e
    | _, _ => Except.error "ValueError"

/-- C10: whenever every loaded row's numeric fields convert (which is
what the claim presupposes by speaking of their numeric values), the
returned list is `rows.filter (repoPasses ...)`: exactly the rows
meeting all three thresholds, in original order, a sublist of the
stored list — which, being an input, is not modified. -/
theorem claim_C10_filter_repositories (rows : List RepoRow)
    (minStars minIssues minTopics : Int)
    (h : ∀ r ∈ rows, intOfField r.stargazers_count ≠ none
        ∧ intOfField r.open_issues_count ≠ none) :
    filter_repositories rows minStars minIssues minTopics
        = Except.ok (rows.filter (repoPasses minStars minIssues minTopics))
      ∧ (rows.filter (repoPasses minStars minIssues minTopics)).Sublist rows := by
  refine ⟨?_, List.filter_sublist rows⟩
  induction rows with
  | nil => rfl
  | cons r rs ih =>
    obtain ⟨h1, h2⟩ := h r (List.mem_cons_self r rs)
    rcases hs : intOfField r.stargazers_count with _ | stars
    · exact absurd hs h1
    rcases hi : intOfField r.open_issues_count with _ | issues
    · exact absurd hi h2
    have ih' := ih (fun x hx => h x (List.mem_cons_of_mem r hx))
    rw [filter_repositories, hs, hi, ih', List.filter_cons]
    dsimp only
    by_cases hc : minStars ≤ stars ∧ minIssues ≤ issues ∧ minTopics ≤ (topicCount r : Int)
    · have hp : repoPasses minStars minIssues minTopics r = true := by
        unfold repoPasses
        rw [hs, hi]
        simp only [Bool.and_eq_true, decide_eq_true_eq]
        tauto
      rw [if_pos hc, hp]
      simp
    · have hp : repoPasses minStars minIssues minTopics r = false := by
        unfold repoPasses
        rw [hs, hi]
        simp only [Bool.and_eq_true, decide_eq_true_eq, Bool.and_eq_false_iff]
        simp only [decide_eq_false_iff_not]
        tauto
      rw [if_neg hc, hp]
      simp

/-- Concrete rows for the C10 witness. -/
def c10RowHigh : RepoRow :=
  { stargazers_count := some ("25".toList), open_issues_count := some ("7".toList),
    topics := some ("[\x22a\x22, \x22b\x22]".toList), full_name := some ("o/high".toList) }

/-- Concrete low-signal row for the C10 witness. -/
def c10RowLow : RepoRow :=
  { stargazers_count := some ("3".toList), open_issues_count := some ("0".toList),
    topics := some ("[]".toList), full_name := some ("o/low".toList) }

/-- C10 witness: thresholds 10 stars / 0 issues / 1 topic keep exactly
the first row. -/
theorem claim_C10_filter_repositories_witness :
    filter_repositories [c10RowHigh, c10RowLow] 10 0 1 = Except.ok [c10RowHigh] := by
  have h := claim_C10_filter_repositories [c10RowHigh, c10RowLow] 10 0 1
    (by
      intro r hr
      simp only [List.mem_cons, List.not_mem_nil, or_false] at hr
      rcases hr with hr | hr <;> (subst hr; decide))
  rw [h.1]
  rfl

end Spec2Proof
